import Mathlib

/-!
Shallow embedding of the `warp-dl` download engine
(`internal/downloader/engine.go`, `internal/downloader/doh.go`,
`internal/downloader/types.go`) and proofs about its segmentation,
merge, retry, probe, DoH-resolution and progress-counter behaviour.

Byte offsets and sizes are Go `int64` values, modelled as `Int`
(no overflow occurs for the values involved); Go's truncated integer
division `/` is `Int.tdiv`.
-/

namespace WarpDL

/-- A download segment (Go struct `Part` in `types.go`): 0-based index,
inclusive start and end offsets, temporary file path. The `Downloaded`
field of the Go struct is never read by the engine and is omitted. -/
structure Part where
  id : Nat
  start : Int
  stop : Int
  tempPath : String
  deriving Repr, DecidableEq

/-- Body of the loop in `Engine.calculateSegments`: segment `i` starts at
`i * partSize`, ends at `start + partSize - 1`, except the last segment
whose end is forced to `totalBytes - 1`. `partSize` is the Go truncated
division `e.Stats.TotalBytes / int64(e.Config.Concurrency)`. -/
def mkSegment (totalBytes : Int) (concurrency : Nat) (outputName : String) (i : Nat) : Part :=
  let partSize := Int.tdiv totalBytes (Int.ofNat concurrency)
  let s : Int := (i : Int) * partSize
  let e : Int := if i = concurrency - 1 then totalBytes - 1 else s + partSize - 1
  { id := i, start := s, stop := e,
    tempPath := outputName ++ ".part" ++ toString i }

/-- `Engine.calculateSegments`: builds segments `0 .. concurrency-1`. -/
def calculateSegments (totalBytes : Int) (concurrency : Nat) (outputName : String) : List Part :=
  (List.range concurrency).map (mkSegment totalBytes concurrency outputName)

/-- File contents as a byte sequence (bytes as `Nat` values). -/
abbrev FileData := List Nat

/-- The file system visible to the engine: path → contents, `none` when the
file does not exist. -/
abbrev FS := String → Option FileData

/-- Overwrite (or delete, with `none`) the entry for one path. -/
def FS.update (fs : FS) (path : String) (d : Option FileData) : FS :=
  fun p => if p = path then d else fs p

/-- Errors `Engine.mergeParts` can surface. I/O failures on the in-memory
disk model cannot occur; opening a missing temp file can. -/
inductive MergeErr where
  | openFailed (path : String)
  | outputMissing
  deriving Repr, DecidableEq

/-- One iteration of the loop in `Engine.mergeParts`: `os.Open` the part's
temp file, `io.Copy` its contents onto the end of the output file, then
`os.Remove` the temp file. -/
def mergeStep (outName : String) (fs : FS) (p : Part) : Except MergeErr FS :=
  match fs p.tempPath with
  | none => .error (.openFailed p.tempPath)
  | some d =>
      match fs outName with
      | none => .error .outputMissing
      | some out =>
          .ok ((fs.update outName (some (out ++ d))).update p.tempPath none)

/-- The `for _, part := range e.Parts` loop of `Engine.mergeParts`. -/
def mergeLoop (outName : String) : List Part → FS → Except MergeErr FS
  | [], fs => .ok fs
  | p :: ps, fs =>
      match mergeStep outName fs p with
      | .error e => .error e
      | .ok fs1 => mergeLoop outName ps fs1

/-- `Engine.mergeParts`: `os.Create` the output file (truncating it), then
copy each segment's temp file into it in list order, deleting each temp
file after it is copied. -/
def mergeParts (outName : String) (parts : List Part) (fs : FS) :
    Except MergeErr FS :=
  mergeLoop outName parts (fs.update outName (some []))

/-- Errors arising inside one download attempt. -/
inductive GoErr where
  | ctxCanceled
  | netErr (code : Nat)
  | badStatus (status : Nat)
  deriving Repr, DecidableEq

/-- Errors `Engine.downloadPartWithRetry` can return: `ctx.Err()`, or the
terminal `fmt.Errorf("failed to download part %d after %d retries: %w", ...)`
which names the part index and the retry count and wraps the last cause. -/
inductive RetryErr where
  | ctxErr
  | exhausted (partId : Nat) (retries : Nat) (cause : GoErr)
  deriving Repr, DecidableEq

/-- The observable behaviour of the server and network during one download
attempt: outcome of `Client.Do` (`some e` = request error), the response
status, the successive successful `Body.Read` chunks, and the error ending
the read loop (`none` = `io.EOF`, a complete body). -/
structure AttemptScript where
  doErr : Option GoErr
  status : Nat
  chunks : List FileData
  bodyErr : Option GoErr

/-- State after one `Engine.downloadPart` call: its returned error, the
file system, the shared `Stats.DownloadedBytes` counter, and the `Range`
header the attempt's request carried (`none` = no `Range` header). -/
structure AttemptResult where
  err : Option GoErr
  fs : FS
  downloaded : Int
  rangeHeader : Option (Int × Int)

/-- `Engine.downloadPart`: issue a `GET` carrying a `Range` header exactly
when `e.IsResumable`; fail on a `Client.Do` error or a status other than
200/206; otherwise `os.Create` the segment's temp file — truncating
whatever a previous attempt left there — and stream the body, appending
each read chunk to the file and adding its length to the shared counter
via `Stats.AddDownloaded`. `canceled` is the context's state while the
attempt runs (a canceled context makes `Client.Do` fail immediately). -/
def downloadPart (canceled : Bool) (isResumable : Bool) (p : Part)
    (a : AttemptScript) (fs : FS) (dl : Int) : AttemptResult :=
  let range := if isResumable then some (p.start, p.stop) else none
  if canceled then
    { err := some .ctxCanceled, fs := fs, downloaded := dl, rangeHeader := range }
  else
    match a.doErr with
    | some e => { err := some e, fs := fs, downloaded := dl, rangeHeader := range }
    | none =>
        if a.status ≠ 206 ∧ a.status ≠ 200 then
          { err := some (.badStatus a.status), fs := fs, downloaded := dl,
            rangeHeader := range }
        else
          { err := a.bodyErr,
            fs := fs.update p.tempPath (some a.chunks.flatten),
            downloaded := dl + ((a.chunks.map List.length).sum : Int),
            rangeHeader := range }

/-- The error of one attempt as a function of its script alone. -/
def scriptErr (a : AttemptScript) : Option GoErr :=
  match a.doErr with
  | some e => some e
  | none =>
      if a.status ≠ 206 ∧ a.status ≠ 200 then some (.badStatus a.status)
      else a.bodyErr

/-- Bytes an attempt adds to the shared counter, as a function of its
script alone. -/
def scriptDelta (a : AttemptScript) : Nat :=
  match a.doErr with
  | some _ => 0
  | none =>
      if a.status ≠ 206 ∧ a.status ≠ 200 then 0
      else (a.chunks.map List.length).sum

/-- Context state seen by the events after backoff sleep `k` (0-based),
when the cancellation signal fires during that sleep: Go's `time.Sleep`
is not interruptible, so attempt `i` and the `select` check after it see
a canceled context exactly when `k < i`. `fire = none` = never canceled. -/
def canceledAt (fire : Option Nat) (i : Nat) : Bool :=
  match fire with
  | none => false
  | some k => decide (k < i)

/-- Outcome of `Engine.downloadPartWithRetry`: final error (`none` =
success), file system, counter, number of `downloadPart` calls made, and
the backoff sleep durations (seconds) in order. -/
structure RetryResult where
  err : Option RetryErr
  fs : FS
  downloaded : Int
  attempts : Nat
  sleeps : List Nat

/-- The `for i := 0; i < maxRetries; i++` loop of
`Engine.downloadPartWithRetry`: run an attempt; return on success; if the
context is canceled return `ctx.Err()`; otherwise sleep `i+1` seconds and
continue; when the loop ends, wrap the last error naming the part index
and the retry count. `remaining` counts iterations still allowed, `i` the
0-based attempt number, so the Go `maxRetries` equals `remaining + i`. -/
def retryLoop (isResumable : Bool) (p : Part) (scripts : Nat → AttemptScript)
    (fire : Option Nat) : Nat → Nat → FS → Int → Option GoErr → RetryResult
  | 0, i, fs, dl, lastErr =>
      { err := some (.exhausted p.id i (lastErr.getD .ctxCanceled)),
        fs := fs, downloaded := dl, attempts := i, sleeps := [] }
  | remaining + 1, i, fs, dl, _ =>
      let r := downloadPart (canceledAt fire i) isResumable p (scripts i) fs dl
      match r.err with
      | none =>
          { err := none, fs := r.fs, downloaded := r.downloaded,
            attempts := i + 1, sleeps := [] }
      | some e =>
          if canceledAt fire i then
            { err := some .ctxErr, fs := r.fs, downloaded := r.downloaded,
              attempts := i + 1, sleeps := [] }
          else
            let rest := retryLoop isResumable p scripts fire remaining (i + 1)
              r.fs r.downloaded (some e)
            { rest with sleeps := (i + 1) :: rest.sleeps }

/-- `Engine.downloadPartWithRetry` (`maxRetries = 3`). -/
def downloadPartWithRetry (isResumable : Bool) (p : Part)
    (scripts : Nat → AttemptScript) (fire : Option Nat) (fs : FS) (dl : Int) :
    RetryResult :=
  retryLoop isResumable p scripts fire 3 0 fs dl none

/-- `e.IsResumable` as computed by `Engine.Start`:
`resumable && e.Stats.TotalBytes > 0`. -/
def isResumableFlag (resumable : Bool) (totalBytes : Int) : Bool :=
  resumable && decide (0 < totalBytes)

/-- Segmentation step of `Engine.Start`: `calculateSegments` when the
transfer is resumable, otherwise a single fallback segment
`{ID: 0, Start: 0, End: totalBytes - 1}`. -/
def startSegments (totalBytes : Int) (resumable : Bool) (concurrency : Nat)
    (outputName : String) : List Part :=
  if isResumableFlag resumable totalBytes then
    calculateSegments totalBytes concurrency outputName
  else
    [{ id := 0, start := 0, stop := totalBytes - 1,
       tempPath := outputName ++ ".part0" }]

/-- Drive `downloadPartWithRetry` over a list of parts, threading the file
system and the shared counter and collecting the errors the part tasks
send to `errChan`. `Engine.Start` runs the parts on concurrent goroutines;
the shared counter is only mutated through atomic additions, so its final
value is interleaving-invariant and the sequential order models it
faithfully. -/
def runParts (isResumable : Bool) (scriptsFor : Nat → Nat → AttemptScript)
    (fire : Option Nat) : List Part → FS → Int → FS × Int × List RetryErr
  | [], fs, dl => (fs, dl, [])
  | p :: ps, fs, dl =>
      let r := downloadPartWithRetry isResumable p (scriptsFor p.id) fire fs dl
      let rest := runParts isResumable scriptsFor fire ps r.fs r.downloaded
      (rest.1, rest.2.1,
        (match r.err with | some e => [e] | none => []) ++ rest.2.2)

/-- Inclusive length of a segment's byte range. -/
def partSize (p : Part) : Int := p.stop - p.start + 1

/-- An HTTP response as `Engine.probeURL` observes it: status code,
`ContentLength`, and the `Accept-Ranges` and `Content-Range` headers
(absent headers read as the empty string, as Go's `Header.Get` does).
`Content-Range` is kept as a character list so Go's `strings.Split` can be
modelled on it. -/
structure HTTPResponse where
  status : Nat
  contentLength : Int
  acceptRanges : String
  contentRange : List Char

/-- Go `strings.Split(s, "/")` on a character list. -/
def splitSlash : List Char → List (List Char)
  | [] => [[]]
  | ch :: rest =>
      if ch = '/' then [] :: splitSlash rest
      else
        match splitSlash rest with
        | [] => [[ch]]
        | g :: gs => (ch :: g) :: gs

/-- Decimal digit run of Go `strconv.ParseUint(s, 10, 64)`: every
character must be a digit and the list nonempty. (Go checks the 64-bit
cutoff while accumulating; accumulating exactly and bounds-checking at the
call site is error-equivalent.) -/
def parseDigitsAux : List Char → Nat → Option Nat
  | [], acc => some acc
  | ch :: cs, acc =>
      if '0' ≤ ch ∧ ch ≤ '9' then
        parseDigitsAux cs (acc * 10 + (ch.toNat - '0'.toNat))
      else none

/-- Digit-run parse rejecting the empty string. -/
def parseDigits : List Char → Option Nat
  | [] => none
  | cs => parseDigitsAux cs 0

/-- Go `strconv.ParseInt(s, 10, 64)`: optional sign, then a nonempty digit
run, range-checked against the signed 64-bit bounds. -/
def parseIntGo (s : List Char) : Option Int :=
  match s with
  | [] => none
  | c :: rest =>
      if c = '+' then
        (parseDigits rest).bind fun n =>
          if n ≤ 2 ^ 63 - 1 then some (n : Int) else none
      else if c = '-' then
        (parseDigits rest).bind fun n =>
          if n ≤ 2 ^ 63 then some (-(n : Int)) else none
      else
        (parseDigits s).bind fun n =>
          if n ≤ 2 ^ 63 - 1 then some (n : Int) else none

/-- The ranged-`GET` fallback of `Engine.probeURL` (`resp` is `none` when
`Client.Do` returns an error): on 206, split `Content-Range` on `/` and
parse the total after it, reporting range support; on 200, the server
ignored the range — report the declared length and no range support; any
other status (or a malformed `Content-Range` on 206) is a probe error. -/
def probeFallback : Option HTTPResponse → Option (Int × Bool)
  | none => none
  | some r =>
      if r.status = 206 then
        match splitSlash r.contentRange with
        | [_, second] =>
            match parseIntGo second with
            | some total => some (total, true)
            | none => none
        | _ => none
      else if r.status = 200 then some (r.contentLength, false)
      else none

/-- `Engine.probeURL`: try `HEAD` first (`head = none` models a `Client.Do`
error); a 200 answer yields its `ContentLength` and whether `Accept-Ranges`
is exactly `"bytes"`; anything else falls back to the ranged `GET`. -/
def probeURL (head : Option HTTPResponse) (ranged : Option HTTPResponse) :
    Option (Int × Bool) :=
  match head with
  | some r =>
      if r.status = 200 then some (r.contentLength, r.acceptRanges == "bytes")
      else probeFallback ranged
  | none => probeFallback ranged

/-- One record of the DoH provider's JSON `Answer` list (`doh.go`). -/
structure DoHAnswer where
  name : String
  type : Int
  ttl : Int
  data : String
  deriving Repr, DecidableEq

/-- The DoH provider's decoded JSON body (`doh.go`). -/
structure DoHResponse where
  status : Int
  answer : List DoHAnswer
  deriving Repr, DecidableEq

/-- Failures of `resolveDoH`. -/
inductive DoHErr where
  | httpStatus (status : Nat)
  | dnsError (code : Int)
  | noAnswer (domain : String)
  | noARecord (domain : String)
  deriving Repr, DecidableEq

/-- `resolveDoH` from the decoded provider response on: reject a non-200
HTTP status, a non-zero DNS `Status`, an empty `Answer` list; otherwise
return the `Data` of the first answer with `Type == 1` (IPv4 `A` record),
or fail when no such record exists. -/
def resolveDoH (domain : String) (httpStatus : Nat) (body : DoHResponse) :
    Except DoHErr String :=
  if httpStatus ≠ 200 then .error (.httpStatus httpStatus)
  else if body.status ≠ 0 then .error (.dnsError body.status)
  else if body.answer.isEmpty then .error (.noAnswer domain)
  else
    match body.answer.find? (fun a => a.type == 1) with
    | some a => .ok a.data
    | none => .error (.noARecord domain)

/-- TLS client configuration (`crypto/tls.Config`), reduced to the field
the engine sets. -/
structure TLSConfig where
  insecureSkipVerify : Bool
  deriving Repr, DecidableEq

/-- An `http.Transport`, reduced to what `NewEngine`/`NewDoHTransport`
set: whether the dialer resolves through DoH, and the TLS config. -/
structure Transport where
  dialsViaDoH : Bool
  tlsClientConfig : TLSConfig
  deriving Repr, DecidableEq

/-- `NewDoHTransport` (`doh.go`): DoH-resolving dialer with
`TLSClientConfig: &tls.Config{InsecureSkipVerify: true}`. -/
def NewDoHTransport : Transport :=
  { dialsViaDoH := true, tlsClientConfig := { insecureSkipVerify := true } }

/-- Transfer configuration (`Config` in `types.go` plus the `UseDoH` flag
read by `NewEngine` and set by the CLI). -/
structure Config where
  url : String
  concurrency : Nat
  outputName : String
  useDoH : Bool
  deriving Repr, DecidableEq

/-- The engine as built by `NewEngine`, reduced to the configuration and
the HTTP client's transport. -/
structure EngineState where
  config : Config
  transport : Transport
  deriving Repr, DecidableEq

/-- `NewEngine` (`engine.go`): with `UseDoH` the client gets the DoH
transport; without it, a plain transport that still sets
`TLSClientConfig: &tls.Config{InsecureSkipVerify: true}`. -/
def NewEngine (cfg : Config) : EngineState :=
  if cfg.useDoH then
    { config := cfg, transport := NewDoHTransport }
  else
    { config := cfg,
      transport :=
        { dialsViaDoH := false,
          tlsClientConfig := { insecureSkipVerify := true } } }

/-- The file system an attempt leaves behind: the temp file is created
(truncated) and rewritten only when the attempt reaches the streaming
phase (no request error, status 200/206). -/
def attemptFS (p : Part) (a : AttemptScript) (fs : FS) : FS :=
  if a.doErr = none ∧ (a.status = 206 ∨ a.status = 200) then
    fs.update p.tempPath (some a.chunks.flatten)
  else fs

/-- The empty file system. -/
def fsEmpty : FS := fun _ => none

/-- A concrete file system holding two segment temp files. -/
def fsTwoParts : FS := fun p =>
  if p = "o.part0" then some [10, 20]
  else if p = "o.part1" then some [30] else none

/-- A concrete segment. -/
def pW : Part := { id := 0, start := 0, stop := 1, tempPath := "o.part0" }

/-- Attempt scripts that always fail with a network error. -/
def alwaysFailScript : Nat → AttemptScript :=
  fun _ => { doErr := some (.netErr 7), status := 0, chunks := [], bodyErr := none }

/-- Attempt scripts where the first attempt streams one byte before the
connection drops and the second streams the segment's two bytes
completely. -/
def partialThenFullScripts : Nat → AttemptScript
  | 0 => { doErr := none, status := 206, chunks := [[7]], bodyErr := some (.netErr 9) }
  | _ => { doErr := none, status := 206, chunks := [[7, 8]], bodyErr := none }

/-- Per-part scripts where every first attempt streams two bytes and
completes. -/
def fullSuccessScripts : Nat → Nat → AttemptScript :=
  fun _ _ => { doErr := none, status := 206, chunks := [[7, 8]], bodyErr := none }

theorem calculateSegments_length (T : Int) (c : Nat) (name : String) :
    (calculateSegments T c name).length = c := by
  simp [calculateSegments]

theorem calculateSegments_getElem (T : Int) (c : Nat) (name : String)
    (i : Nat) (h : i < c) :
    (calculateSegments T c name)[i]? = some (mkSegment T c name i) := by
  simp [calculateSegments, List.getElem?_map, List.getElem?_range, h]

theorem mkSegment_start (T : Int) (c : Nat) (name : String) (i : Nat) :
    (mkSegment T c name i).start = (i : Int) * Int.tdiv T (Int.ofNat c) := rfl

theorem mkSegment_stop_last (T : Int) (c : Nat) (name : String) :
    (mkSegment T c name (c - 1)).stop = T - 1 := by
  simp [mkSegment]

theorem mkSegment_stop_of_ne_last (T : Int) (c : Nat) (name : String)
    (i : Nat) (h : i ≠ c - 1) :
    (mkSegment T c name i).stop =
      (i : Int) * Int.tdiv T (Int.ofNat c) + Int.tdiv T (Int.ofNat c) - 1 := by
  simp [mkSegment, h]

/-- For `T > 0`, `c ≥ 1`, the Go division `T / int64(c)` equals Euclidean
division and is nonnegative, with the usual remainder identity. -/
theorem tdiv_facts (T : Int) (c : Nat) (hT : 0 < T) (hc : 1 ≤ c) :
    Int.tdiv T (Int.ofNat c) = T / (c : Int) ∧ 0 ≤ T / (c : Int) ∧
      (c : Int) * (T / (c : Int)) + T % (c : Int) = T ∧
      0 ≤ T % (c : Int) ∧ T % (c : Int) < (c : Int) := by
  have hc0 : (0 : Int) < (c : Int) := by exact_mod_cast hc
  refine ⟨Int.tdiv_eq_ediv hT.le hc0.le, Int.ediv_nonneg hT.le hc0.le,
    Int.ediv_add_emod T (c : Int), Int.emod_nonneg T (by exact_mod_cast hc0.ne'),
    Int.emod_lt_of_pos T hc0⟩

/-- C1: for total size `T > 0` and concurrency `c ≥ 1`, `calculateSegments`
produces exactly `c` segments with 0-based indices; each non-last segment has
size `⌊T/c⌋`; the last segment's end is `T - 1`; the segments are contiguous,
pairwise non-overlapping, and their ranges cover exactly `[0, T-1]`. -/
theorem c1_calculateSegments_partition (T : Int) (c : Nat) (name : String)
    (hT : 0 < T) (hc : 1 ≤ c) :
    (calculateSegments T c name).length = c ∧
    (∀ i, i < c → (calculateSegments T c name)[i]? = some (mkSegment T c name i)) ∧
    (∀ i, i < c → (mkSegment T c name i).id = i) ∧
    (∀ i, i + 1 < c →
      (mkSegment T c name i).stop - (mkSegment T c name i).start + 1 =
        Int.tdiv T (Int.ofNat c)) ∧
    (mkSegment T c name 0).start = 0 ∧
    (mkSegment T c name (c - 1)).stop = T - 1 ∧
    (∀ i, i + 1 < c →
      (mkSegment T c name (i + 1)).start = (mkSegment T c name i).stop + 1) ∧
    (∀ i j, i < j → j < c → ∀ b : Int,
      (mkSegment T c name i).start ≤ b → b ≤ (mkSegment T c name i).stop →
      ¬((mkSegment T c name j).start ≤ b ∧ b ≤ (mkSegment T c name j).stop)) ∧
    (∀ b : Int, (0 ≤ b ∧ b ≤ T - 1) ↔
      ∃ i, i < c ∧ (mkSegment T c name i).start ≤ b ∧
        b ≤ (mkSegment T c name i).stop) := by
  obtain ⟨htd, hq0, hid, hm0, hmc⟩ := tdiv_facts T c hT hc
  set q : Int := T / (c : Int) with hqdef
  have hcq : (c : Int) * q ≤ T := by linarith
  refine ⟨calculateSegments_length T c name,
    fun i hi => calculateSegments_getElem T c name i hi,
    fun i _ => rfl, ?_, ?_, mkSegment_stop_last T c name, ?_, ?_, ?_⟩
  · intro i hi
    have hne : i ≠ c - 1 := by omega
    rw [mkSegment_stop_of_ne_last T c name i hne, mkSegment_start, htd]
    ring
  · simp [mkSegment_start]
  · intro i hi
    have hne : i ≠ c - 1 := by omega
    rw [mkSegment_start, mkSegment_stop_of_ne_last T c name i hne, htd]
    push_cast
    ring
  · intro i j hij hjc b hsb hbs ⟨hsb2, hbs2⟩
    have hine : i ≠ c - 1 := by omega
    rw [mkSegment_stop_of_ne_last T c name i hine, htd] at hbs
    rw [mkSegment_start] at hsb hsb2
    rw [htd] at hsb hsb2
    have hij' : (i : Int) + 1 ≤ (j : Int) := by exact_mod_cast hij
    have hmul : ((i : Int) + 1) * q ≤ (j : Int) * q :=
      mul_le_mul_of_nonneg_right hij' hq0
    nlinarith
  · intro b
    constructor
    · rintro ⟨hb0, hbT⟩
      rcases eq_or_lt_of_le hq0 with hqz | hqpos
      · refine ⟨c - 1, by omega, ?_, ?_⟩
        · rw [mkSegment_start, htd, ← hqz]
          simpa using hb0
        · rw [mkSegment_stop_last]
          exact hbT
      · set k : Int := b / q with hkdef
        have hk0 : 0 ≤ k := Int.ediv_nonneg hb0 hqpos.le
        have hkq : k * q ≤ b := Int.ediv_mul_le b hqpos.ne'
        have hbk : b < (k + 1) * q := Int.lt_ediv_add_one_mul_self b hqpos
        by_cases hkc : k < (c : Int) - 1
        · refine ⟨k.toNat, by omega, ?_, ?_⟩
          · rw [mkSegment_start, htd, Int.toNat_of_nonneg hk0]
            exact hkq
          · have hne : k.toNat ≠ c - 1 := by omega
            rw [mkSegment_stop_of_ne_last T c name k.toNat hne, htd,
              Int.toNat_of_nonneg hk0]
            nlinarith
        · refine ⟨c - 1, by omega, ?_, ?_⟩
          · rw [mkSegment_start, htd]
            have h1 : ((c : Int) - 1) * q ≤ k * q :=
              mul_le_mul_of_nonneg_right (by omega) hq0
            have hcast : ((c - 1 : Nat) : Int) = (c : Int) - 1 := by omega
            rw [hcast]
            linarith
          · rw [mkSegment_stop_last]
            exact hbT
    · rintro ⟨i, hic, hsb, hbs⟩
      rw [mkSegment_start, htd] at hsb
      have hi0 : (0 : Int) ≤ (i : Int) * q := mul_nonneg (by positivity) hq0
      refine ⟨by linarith, ?_⟩
      by_cases hlast : i = c - 1
      · rw [hlast, mkSegment_stop_last] at hbs
        exact hbs
      · rw [mkSegment_stop_of_ne_last T c name i hlast, htd] at hbs
        have hi1 : (i : Int) + 1 ≤ (c : Int) := by
          have : i < c := hic
          omega
        have hmul : ((i : Int) + 1) * q ≤ (c : Int) * q :=
          mul_le_mul_of_nonneg_right hi1 hq0
        nlinarith

/-- Witness for C1 at `T = 10`, `c = 3`. -/
theorem c1_calculateSegments_partition_witness :
    (calculateSegments 10 3 "out").length = 3 :=
  (c1_calculateSegments_partition 10 3 "out" (by decide) (by decide)).1

/-- Transfer a per-part file-contents relation along a file system that
agrees on the listed parts' temp paths. -/
theorem forall₂_congr_fs {ps : List Part} {ds : List FileData} {f g : FS}
    (hagree : ∀ q ∈ ps, g q.tempPath = f q.tempPath)
    (h : List.Forall₂ (fun p d => f p.tempPath = some d) ps ds) :
    List.Forall₂ (fun p d => g p.tempPath = some d) ps ds := by
  induction h with
  | nil => exact .nil
  | @cons p d ps' ds' hpd _ ih =>
      refine List.Forall₂.cons ?_ (ih ?_)
      · rw [hagree p (List.mem_cons_self p ps')]
        exact hpd
      · intro q hq
        exact hagree q (List.mem_cons_of_mem p hq)

/-- The merge loop, started on a file system where each part's temp file
holds its chunk and the output file holds `acc`, succeeds and leaves the
output holding `acc ++ chunks.flatten`, all temp files deleted, and every
other path untouched. -/
theorem mergeLoop_spec (outName : String) :
    ∀ (parts : List Part) (chunks : List FileData) (fs : FS) (acc : FileData),
      List.Forall₂ (fun p d => fs p.tempPath = some d) parts chunks →
      (parts.map Part.tempPath).Nodup →
      (∀ p ∈ parts, p.tempPath ≠ outName) →
      fs outName = some acc →
      ∃ fs', mergeLoop outName parts fs = .ok fs' ∧
        fs' outName = some (acc ++ chunks.flatten) ∧
        (∀ p ∈ parts, fs' p.tempPath = none) ∧
        (∀ path, path ≠ outName → (∀ p ∈ parts, path ≠ p.tempPath) →
          fs' path = fs path)
  | [], [], fs, acc, _, _, _, hout =>
      ⟨fs, rfl, by simpa using hout, by simp, fun _ _ _ => rfl⟩
  | p :: ps, d :: ds, fs, acc, hf, hnd, hne, hout => by
      rcases List.forall₂_cons.mp hf with ⟨hpd, hf'⟩
      have hpo : p.tempPath ≠ outName := hne p (List.mem_cons_self p ps)
      have hstep : mergeStep outName fs p =
          .ok ((fs.update outName (some (acc ++ d))).update p.tempPath none) := by
        simp [mergeStep, hpd, hout]
      set fs1 : FS :=
        (fs.update outName (some (acc ++ d))).update p.tempPath none with hfs1
      have hnd' : (ps.map Part.tempPath).Nodup := (List.nodup_cons.mp hnd).2
      have hpnotin : p.tempPath ∉ ps.map Part.tempPath := (List.nodup_cons.mp hnd).1
      have hfs1at : ∀ q ∈ ps, fs1 q.tempPath = fs q.tempPath := by
        intro q hq
        have h1 : q.tempPath ≠ p.tempPath := by
          intro hcontra
          exact hpnotin (hcontra ▸ List.mem_map_of_mem Part.tempPath hq)
        have h2 : q.tempPath ≠ outName := hne q (List.mem_cons_of_mem p hq)
        simp [hfs1, FS.update, h1, h2]
      have hf1 : List.Forall₂ (fun q d => fs1 q.tempPath = some d) ps ds :=
        forall₂_congr_fs hfs1at hf'
      have hout1 : fs1 outName = some (acc ++ d) := by
        simp [hfs1, FS.update, Ne.symm hpo]
      obtain ⟨fs', hrun, hfsout, hdel, hframe⟩ :=
        mergeLoop_spec outName ps ds fs1 (acc ++ d) hf1 hnd'
          (fun q hq => hne q (List.mem_cons_of_mem p hq)) hout1
      refine ⟨fs', ?_, ?_, ?_, ?_⟩
      · simp [mergeLoop, hstep, ← hfs1, hrun]
      · rw [hfsout]
        simp
      · intro q hq
        rcases List.mem_cons.mp hq with hq | hq
        · subst hq
          have hnotin : ∀ r ∈ ps, q.tempPath ≠ r.tempPath := by
            intro r hr hcontra
            exact hpnotin (hcontra ▸ List.mem_map_of_mem Part.tempPath hr)
          rw [hframe q.tempPath hpo hnotin]
          simp [hfs1, FS.update]
        · exact hdel q hq
      · intro path hpath hnotin
        rw [hframe path hpath (fun r hr => hnotin r (List.mem_cons_of_mem p hr))]
        have h1 : path ≠ p.tempPath := hnotin p (List.mem_cons_self p ps)
        simp [hfs1, FS.update, h1, hpath]

/-- C2: `mergeParts` creates the output file and copies each segment's temp
file into it strictly in list (ascending index) order, deleting each temp
file after it is copied; for any partition of a resource into chunks of
arbitrary sizes held in the segments' temp files, the merged output is the
byte-for-byte concatenation reproducing the original resource. -/
theorem c2_mergeParts_reassembles (outName : String) (parts : List Part)
    (chunks : List FileData) (resource : FileData) (fs : FS)
    (hf : List.Forall₂ (fun p d => fs p.tempPath = some d) parts chunks)
    (hnd : (parts.map Part.tempPath).Nodup)
    (hne : ∀ p ∈ parts, p.tempPath ≠ outName)
    (hres : resource = chunks.flatten) :
    ∃ fs', mergeParts outName parts fs = .ok fs' ∧
      fs' outName = some resource ∧
      (∀ p ∈ parts, fs' p.tempPath = none) := by
  have hf0 : List.Forall₂ (fun p d => (fs.update outName (some [])) p.tempPath = some d)
      parts chunks :=
    forall₂_congr_fs (fun p hp => by simp [FS.update, hne p hp]) hf
  obtain ⟨fs', hrun, hout, hdel, _⟩ :=
    mergeLoop_spec outName parts chunks (fs.update outName (some [])) [] hf0 hnd hne
      (by simp [FS.update])
  exact ⟨fs', hrun, by simpa [hres] using hout, hdel⟩

/-- Witness for C2: two chunks `[10, 20]` and `[30]` merge to
`[10, 20, 30]`. -/
theorem c2_mergeParts_reassembles_witness :
    ∃ fs', mergeParts "o" [⟨0, 0, 1, "o.part0"⟩, ⟨1, 2, 2, "o.part1"⟩] fsTwoParts =
        .ok fs' ∧
      fs' "o" = some [10, 20, 30] ∧
      (∀ p ∈ [Part.mk 0 0 1 "o.part0", Part.mk 1 2 2 "o.part1"],
        fs' p.tempPath = none) :=
  c2_mergeParts_reassembles "o" [⟨0, 0, 1, "o.part0"⟩, ⟨1, 2, 2, "o.part1"⟩]
    [[10, 20], [30]] [10, 20, 30] fsTwoParts
    (List.Forall₂.cons (by decide) (List.Forall₂.cons (by decide) List.Forall₂.nil))
    (by decide) (by decide) (by decide)

/-- One non-canceled `downloadPart` call, written through the script-level
error, counter-delta and file-system functions. -/
theorem downloadPart_eq (isR : Bool) (p : Part) (a : AttemptScript) (fs : FS)
    (dl : Int) :
    downloadPart false isR p a fs dl =
      { err := scriptErr a,
        fs := attemptFS p a fs,
        downloaded := dl + (scriptDelta a : Int),
        rangeHeader := if isR then some (p.start, p.stop) else none } := by
  unfold downloadPart scriptErr scriptDelta attemptFS
  cases hdo : a.doErr with
  | some e => simp
  | none =>
      by_cases hst : a.status ≠ 206 ∧ a.status ≠ 200
      · simp [hst]
      · have hst' : a.status = 206 ∨ a.status = 200 := by tauto
        simp [hst, hst']

/-- A canceled `downloadPart` call fails with `ctxCanceled` and touches
nothing. -/
theorem downloadPart_canceled (isR : Bool) (p : Part) (a : AttemptScript)
    (fs : FS) (dl : Int) :
    downloadPart true isR p a fs dl =
      { err := some .ctxCanceled, fs := fs, downloaded := dl,
        rangeHeader := if isR then some (p.start, p.stop) else none } := by
  unfold downloadPart
  simp

/-- Retry-loop step on a failing, un-canceled attempt: record the backoff
sleep `i + 1` and continue. -/
theorem retryLoop_fail_step (isR : Bool) (p : Part)
    (scripts : Nat → AttemptScript) (fire : Option Nat) (r i : Nat) (fs : FS)
    (dl : Int) (last : Option GoErr) (e : GoErr)
    (hs : scriptErr (scripts i) = some e) (hc : canceledAt fire i = false) :
    retryLoop isR p scripts fire (r + 1) i fs dl last =
      (fun rest => { rest with sleeps := (i + 1) :: rest.sleeps })
        (retryLoop isR p scripts fire r (i + 1)
          (attemptFS p (scripts i) fs) (dl + (scriptDelta (scripts i) : Int))
          (some e)) := by
  simp only [retryLoop, hc, downloadPart_eq, hs]
  rfl

/-- Retry-loop step on a successful attempt: return immediately. -/
theorem retryLoop_success_step (isR : Bool) (p : Part)
    (scripts : Nat → AttemptScript) (fire : Option Nat) (r i : Nat) (fs : FS)
    (dl : Int) (last : Option GoErr)
    (hs : scriptErr (scripts i) = none) (hc : canceledAt fire i = false) :
    retryLoop isR p scripts fire (r + 1) i fs dl last =
      { err := none, fs := attemptFS p (scripts i) fs,
        downloaded := dl + (scriptDelta (scripts i) : Int),
        attempts := i + 1, sleeps := [] } := by
  simp only [retryLoop, hc, downloadPart_eq, hs]

/-- Retry-loop step under a canceled context: the attempt's `Client.Do`
fails at once and the loop returns `ctx.Err()`. -/
theorem retryLoop_canceled_step (isR : Bool) (p : Part)
    (scripts : Nat → AttemptScript) (fire : Option Nat) (r i : Nat) (fs : FS)
    (dl : Int) (last : Option GoErr) (hc : canceledAt fire i = true) :
    retryLoop isR p scripts fire (r + 1) i fs dl last =
      { err := some .ctxErr, fs := fs, downloaded := dl,
        attempts := i + 1, sleeps := [] } := by
  simp [retryLoop, hc, downloadPart_canceled]

/-- The retry loop makes at most `remaining` further attempts. -/
theorem retryLoop_attempts_le (isR : Bool) (p : Part)
    (scripts : Nat → AttemptScript) (fire : Option Nat) :
    ∀ (r i : Nat) (fs : FS) (dl : Int) (last : Option GoErr),
      (retryLoop isR p scripts fire r i fs dl last).attempts ≤ i + r
  | 0, i, fs, dl, last => by simp [retryLoop]
  | r + 1, i, fs, dl, last => by
      by_cases hc : canceledAt fire i
      · rw [retryLoop_canceled_step isR p scripts fire r i fs dl last hc]
        show i + 1 ≤ i + (r + 1)
        omega
      · cases hs : scriptErr (scripts i) with
        | none =>
            rw [retryLoop_success_step isR p scripts fire r i fs dl last hs
              (by simpa using hc)]
            show i + 1 ≤ i + (r + 1)
            omega
        | some e =>
            rw [retryLoop_fail_step isR p scripts fire r i fs dl last e hs
              (by simpa using hc)]
            show (retryLoop isR p scripts fire r (i + 1)
              (attemptFS p (scripts i) fs)
              (dl + (scriptDelta (scripts i) : Int)) (some e)).attempts ≤
                i + (r + 1)
            have ih := retryLoop_attempts_le isR p scripts fire r (i + 1)
              (attemptFS p (scripts i) fs) (dl + (scriptDelta (scripts i) : Int))
              (some e)
            omega

/-- C4 counterexample: with every attempt failing and no cancellation, the
loop sleeps `[1, 2, 3]` seconds — it does sleep `3s` after the final
failed attempt, so the sleeps are not only between consecutive attempts. -/
theorem c4_counterexample :
    (downloadPartWithRetry true pW alwaysFailScript none fsEmpty 0).sleeps =
        [1, 2, 3] ∧
      ¬((downloadPartWithRetry true pW alwaysFailScript none fsEmpty 0).sleeps =
        [1, 2]) := by
  decide

/-- C4 (amended): `downloadPartWithRetry` makes at most 3 attempts; a
failed, un-canceled attempt `i+1` is followed by a sleep of `i+1` seconds
— including after the final failed attempt, so three failures sleep
`1s, 2s, 3s`; after exhausting all 3 attempts it returns a terminal error
naming the segment index and wrapping the last underlying cause; a success
on attempt `k+1` returns after `k+1` attempts with sleeps `1..k`. -/
theorem c4_retry_policy (isR : Bool) (p : Part) (scripts : Nat → AttemptScript)
    (fs : FS) (dl : Int) :
    (∀ fire, (downloadPartWithRetry isR p scripts fire fs dl).attempts ≤ 3) ∧
    (∀ e0 e1 e2, scriptErr (scripts 0) = some e0 →
      scriptErr (scripts 1) = some e1 → scriptErr (scripts 2) = some e2 →
      (downloadPartWithRetry isR p scripts none fs dl).err =
          some (.exhausted p.id 3 e2) ∧
        (downloadPartWithRetry isR p scripts none fs dl).attempts = 3 ∧
        (downloadPartWithRetry isR p scripts none fs dl).sleeps = [1, 2, 3]) ∧
    (∀ e0 e1, scriptErr (scripts 0) = some e0 →
      scriptErr (scripts 1) = some e1 → scriptErr (scripts 2) = none →
      (downloadPartWithRetry isR p scripts none fs dl).err = none ∧
        (downloadPartWithRetry isR p scripts none fs dl).attempts = 3 ∧
        (downloadPartWithRetry isR p scripts none fs dl).sleeps = [1, 2]) ∧
    (∀ e0, scriptErr (scripts 0) = some e0 → scriptErr (scripts 1) = none →
      (downloadPartWithRetry isR p scripts none fs dl).err = none ∧
        (downloadPartWithRetry isR p scripts none fs dl).attempts = 2 ∧
        (downloadPartWithRetry isR p scripts none fs dl).sleeps = [1]) ∧
    (scriptErr (scripts 0) = none →
      (downloadPartWithRetry isR p scripts none fs dl).err = none ∧
        (downloadPartWithRetry isR p scripts none fs dl).attempts = 1 ∧
        (downloadPartWithRetry isR p scripts none fs dl).sleeps = []) := by
  refine ⟨fun fire => retryLoop_attempts_le isR p scripts fire 3 0 fs dl none,
    ?_, ?_, ?_, ?_⟩
  · intro e0 e1 e2 h0 h1 h2
    unfold downloadPartWithRetry
    rw [retryLoop_fail_step isR p scripts none 2 0 fs dl none e0 h0 rfl]
    rw [retryLoop_fail_step isR p scripts none 1 1 _ _ _ e1 h1 rfl]
    rw [retryLoop_fail_step isR p scripts none 0 2 _ _ _ e2 h2 rfl]
    simp [retryLoop]
  · intro e0 e1 h0 h1 h2
    unfold downloadPartWithRetry
    rw [retryLoop_fail_step isR p scripts none 2 0 fs dl none e0 h0 rfl]
    rw [retryLoop_fail_step isR p scripts none 1 1 _ _ _ e1 h1 rfl]
    rw [retryLoop_success_step isR p scripts none 0 2 _ _ _ h2 rfl]
    simp
  · intro e0 h0 h1
    unfold downloadPartWithRetry
    rw [retryLoop_fail_step isR p scripts none 2 0 fs dl none e0 h0 rfl]
    rw [retryLoop_success_step isR p scripts none 1 1 _ _ _ h1 rfl]
    simp
  · intro h0
    unfold downloadPartWithRetry
    rw [retryLoop_success_step isR p scripts none 2 0 fs dl none h0 rfl]
    simp

/-- Witness for C4: three failing attempts yield the terminal error
naming part `0` and 3 retries and wrapping the last network error. -/
theorem c4_retry_policy_witness :
    (downloadPartWithRetry true pW alwaysFailScript none fsEmpty 0).err =
      some (.exhausted pW.id 3 (.netErr 7)) :=
  ((c4_retry_policy true pW alwaysFailScript fsEmpty 0).2.1 (.netErr 7)
    (.netErr 7) (.netErr 7) (by decide) (by decide) (by decide)).1

/-- C5 counterexample: cancellation fired during the backoff sleep that
follows the third failed attempt, yet the reported error is the
retry-exhaustion error, not the cancellation error. -/
theorem c5_counterexample :
    (downloadPartWithRetry true pW alwaysFailScript (some 2) fsEmpty 0).err =
        some (.exhausted 0 3 (.netErr 7)) ∧
      (downloadPartWithRetry true pW alwaysFailScript (some 2) fsEmpty 0).err ≠
        some .ctxErr := by
  decide

/-- C5 (amended): `time.Sleep` is not interruptible, so cancellation
firing during backoff sleep `k` (after failed attempts `0..k`) does not
abort the wait: one further attempt is initiated (its `Client.Do` fails
under the canceled context) and only then is the cancellation error
returned, after `k + 2` attempts; and when the cancellation fires during
the sleep that follows the final failed attempt, the retry-exhaustion
error — not cancellation — is returned. -/
theorem c5_cancellation_mid_backoff (isR : Bool) (p : Part)
    (scripts : Nat → AttemptScript) (fs : FS) (dl : Int) :
    (∀ k, k + 1 < 3 → (∀ i, i ≤ k → ∃ e, scriptErr (scripts i) = some e) →
      (downloadPartWithRetry isR p scripts (some k) fs dl).err =
          some .ctxErr ∧
        (downloadPartWithRetry isR p scripts (some k) fs dl).attempts =
          k + 2) ∧
    (∀ e0 e1 e2, scriptErr (scripts 0) = some e0 →
      scriptErr (scripts 1) = some e1 → scriptErr (scripts 2) = some e2 →
      (downloadPartWithRetry isR p scripts (some 2) fs dl).err =
        some (.exhausted p.id 3 e2)) := by
  constructor
  · intro k hk hfail
    have hk1 : k ≤ 1 := by omega
    interval_cases k
    · obtain ⟨e0, h0⟩ := hfail 0 (Nat.le_refl 0)
      unfold downloadPartWithRetry
      rw [retryLoop_fail_step isR p scripts (some 0) 2 0 fs dl none e0 h0
        (by decide)]
      rw [retryLoop_canceled_step isR p scripts (some 0) 1 1 _ _ _ (by decide)]
      exact ⟨rfl, rfl⟩
    · obtain ⟨e0, h0⟩ := hfail 0 (by omega)
      obtain ⟨e1, h1⟩ := hfail 1 (by omega)
      unfold downloadPartWithRetry
      rw [retryLoop_fail_step isR p scripts (some 1) 2 0 fs dl none e0 h0
        (by decide)]
      rw [retryLoop_fail_step isR p scripts (some 1) 1 1 _ _ _ e1 h1
        (by decide)]
      rw [retryLoop_canceled_step isR p scripts (some 1) 0 2 _ _ _ (by decide)]
      exact ⟨rfl, rfl⟩
  · intro e0 e1 e2 h0 h1 h2
    unfold downloadPartWithRetry
    rw [retryLoop_fail_step isR p scripts (some 2) 2 0 fs dl none e0 h0
      (by decide)]
    rw [retryLoop_fail_step isR p scripts (some 2) 1 1 _ _ _ e1 h1 (by decide)]
    rw [retryLoop_fail_step isR p scripts (some 2) 0 2 _ _ _ e2 h2 (by decide)]
    simp [retryLoop]

/-- Witness for C5: cancellation during the first backoff sleep is
reported as the cancellation error, but only after a second attempt was
initiated. -/
theorem c5_cancellation_mid_backoff_witness :
    (downloadPartWithRetry true pW alwaysFailScript (some 0) fsEmpty 0).err =
      some .ctxErr :=
  ((c5_cancellation_mid_backoff true pW alwaysFailScript fsEmpty 0).1 0
    (by decide) (fun i _ => ⟨.netErr 7, rfl⟩)).1

/-- A segment whose failed attempts stream no bytes and whose attempt
`k+1` succeeds adds exactly that attempt's byte count to the counter. -/
theorem retry_clean_success (isR : Bool) (p : Part)
    (scripts : Nat → AttemptScript) (fs : FS) (dl : Int) (k : Nat) (hk : k < 3)
    (hfail : ∀ i, i < k → ∃ e, scriptErr (scripts i) = some e)
    (hdelta : ∀ i, i < k → scriptDelta (scripts i) = 0)
    (hsucc : scriptErr (scripts k) = none) :
    (downloadPartWithRetry isR p scripts none fs dl).err = none ∧
    (downloadPartWithRetry isR p scripts none fs dl).downloaded =
      dl + (scriptDelta (scripts k) : Int) := by
  have hk2 : k ≤ 2 := by omega
  interval_cases k
  · unfold downloadPartWithRetry
    rw [retryLoop_success_step isR p scripts none 2 0 fs dl none hsucc rfl]
    exact ⟨rfl, rfl⟩
  · obtain ⟨e0, h0⟩ := hfail 0 (by omega)
    unfold downloadPartWithRetry
    rw [retryLoop_fail_step isR p scripts none 2 0 fs dl none e0 h0 rfl]
    rw [retryLoop_success_step isR p scripts none 1 1 _ _ _ hsucc rfl]
    refine ⟨rfl, ?_⟩
    show dl + (scriptDelta (scripts 0) : Int) + (scriptDelta (scripts 1) : Int) =
      dl + (scriptDelta (scripts 1) : Int)
    rw [hdelta 0 (by omega)]
    simp
  · obtain ⟨e0, h0⟩ := hfail 0 (by omega)
    obtain ⟨e1, h1⟩ := hfail 1 (by omega)
    unfold downloadPartWithRetry
    rw [retryLoop_fail_step isR p scripts none 2 0 fs dl none e0 h0 rfl]
    rw [retryLoop_fail_step isR p scripts none 1 1 _ _ _ e1 h1 rfl]
    rw [retryLoop_success_step isR p scripts none 0 2 _ _ _ hsucc rfl]
    refine ⟨rfl, ?_⟩
    show dl + (scriptDelta (scripts 0) : Int) + (scriptDelta (scripts 1) : Int) +
        (scriptDelta (scripts 2) : Int) =
      dl + (scriptDelta (scripts 2) : Int)
    rw [hdelta 0 (by omega), hdelta 1 (by omega)]
    simp

/-- When every part's failing attempts stream no bytes and its successful
attempt streams exactly its segment size, the run reports no errors and
the counter grows by the sum of the segment sizes. -/
theorem runParts_clean (isR : Bool) (scriptsFor : Nat → Nat → AttemptScript) :
    ∀ (parts : List Part) (fs : FS) (dl : Int),
      (∀ p ∈ parts, ∃ k, k < 3 ∧
        (∀ i, i < k → ∃ e, scriptErr (scriptsFor p.id i) = some e) ∧
        (∀ i, i < k → scriptDelta (scriptsFor p.id i) = 0) ∧
        scriptErr (scriptsFor p.id k) = none ∧
        (scriptDelta (scriptsFor p.id k) : Int) = partSize p) →
      (runParts isR scriptsFor none parts fs dl).2.2 = [] ∧
      (runParts isR scriptsFor none parts fs dl).2.1 =
        dl + (parts.map partSize).sum
  | [], fs, dl, _ => ⟨rfl, by simp [runParts]⟩
  | p :: ps, fs, dl, h => by
      obtain ⟨k, hk, hfail, hdelta, hsucc, hsz⟩ := h p (List.mem_cons_self p ps)
      obtain ⟨herr, hdl⟩ :=
        retry_clean_success isR p (scriptsFor p.id) fs dl k hk hfail hdelta hsucc
      obtain ⟨ih1, ih2⟩ := runParts_clean isR scriptsFor ps
        (downloadPartWithRetry isR p (scriptsFor p.id) none fs dl).fs
        (downloadPartWithRetry isR p (scriptsFor p.id) none fs dl).downloaded
        (fun q hq => h q (List.mem_cons_of_mem p hq))
      refine ⟨?_, ?_⟩
      · simp [runParts, herr, ih1]
      · show (runParts isR scriptsFor none ps
            (downloadPartWithRetry isR p (scriptsFor p.id) none fs dl).fs
            (downloadPartWithRetry isR p (scriptsFor p.id) none fs dl).downloaded).2.1 =
          dl + ((p :: ps).map partSize).sum
        rw [ih2, hdl, hsz, List.map_cons, List.sum_cons]
        ring

/-- Any per-part observed amounts bounded by the segment sizes sum to at
most the sum of the segment sizes. -/
theorem forall₂_sum_le {obs : List Int} {parts : List Part}
    (h : List.Forall₂ (fun o p => 0 ≤ o ∧ o ≤ partSize p) obs parts) :
    obs.sum ≤ (parts.map partSize).sum := by
  induction h with
  | nil => simp
  | @cons o p obs' parts' h1 _ ih =>
      simp only [List.sum_cons, List.map_cons]
      linarith [h1.2, ih]

/-- The segment sizes of `calculateSegments` sum to the total size. -/
theorem calculateSegments_sizes_sum (T : Int) (c : Nat) (name : String)
    (hT : 0 < T) (hc : 1 ≤ c) :
    ((calculateSegments T c name).map partSize).sum = T := by
  obtain ⟨htd, hq0, hid, hm0, hmc⟩ := tdiv_facts T c hT hc
  set q : Int := T / (c : Int) with hqdef
  obtain ⟨c', rfl⟩ : ∃ c', c = c' + 1 := ⟨c - 1, by omega⟩
  rw [calculateSegments, List.range_succ, List.map_append, List.map_append,
    List.sum_append]
  have hconst : List.map partSize
      ((List.range c').map (mkSegment T (c' + 1) name)) =
      List.replicate c' q := by
    rw [List.eq_replicate_iff]
    refine ⟨by simp, ?_⟩
    intro b hb
    rw [List.map_map] at hb
    obtain ⟨i, hi, rfl⟩ := List.mem_map.mp hb
    have hi' : i < c' := List.mem_range.mp hi
    show partSize (mkSegment T (c' + 1) name i) = q
    unfold partSize
    rw [mkSegment_stop_of_ne_last T (c' + 1) name i (by omega),
      mkSegment_start, htd]
    ring
  have hlast : partSize (mkSegment T (c' + 1) name c') = T - (c' : Int) * q := by
    unfold partSize
    have hstop : (mkSegment T (c' + 1) name c').stop = T - 1 :=
      mkSegment_stop_last T (c' + 1) name
    rw [hstop, mkSegment_start, htd]
    ring
  rw [hconst, List.sum_replicate, nsmul_eq_mul]
  simp only [List.map_singleton, List.sum_singleton]
  rw [hlast]
  ring

/-- C3 counterexample: a resource of total size `T = 2` downloaded on one
segment, where the first attempt streams one byte before the connection
drops and the retried attempt streams the whole segment: the transfer
fully succeeds (no errors collected), yet the counter ends at `3 > 2` —
`GetDownloaded` exceeds the total size and does not equal it. -/
theorem c3_counterexample :
    (runParts true (fun _ => partialThenFullScripts) none
        (calculateSegments 2 1 "o") fsEmpty 0).2.2 = [] ∧
      (runParts true (fun _ => partialThenFullScripts) none
        (calculateSegments 2 1 "o") fsEmpty 0).2.1 = 3 ∧
      ¬((runParts true (fun _ => partialThenFullScripts) none
        (calculateSegments 2 1 "o") fsEmpty 0).2.1 ≤ 2) := by
  decide

/-- C3 (amended): the counter sums every streamed chunk across all
attempts, so it equals the total size `T` after a fully successful
transfer provided no failed attempt streamed any bytes; under that
restriction every observation point — each segment having counted at most
its own size — reads at most `T`. -/
theorem c3_progress_counter (T : Int) (c : Nat) (name : String)
    (scriptsFor : Nat → Nat → AttemptScript) (fs : FS)
    (hT : 0 < T) (hc : 1 ≤ c)
    (hclean : ∀ p ∈ calculateSegments T c name, ∃ k, k < 3 ∧
      (∀ i, i < k → ∃ e, scriptErr (scriptsFor p.id i) = some e) ∧
      (∀ i, i < k → scriptDelta (scriptsFor p.id i) = 0) ∧
      scriptErr (scriptsFor p.id k) = none ∧
      (scriptDelta (scriptsFor p.id k) : Int) = partSize p) :
    (runParts true scriptsFor none (calculateSegments T c name) fs 0).2.2 = [] ∧
    (runParts true scriptsFor none (calculateSegments T c name) fs 0).2.1 = T ∧
    (∀ obs : List Int,
      List.Forall₂ (fun o p => 0 ≤ o ∧ o ≤ partSize p) obs
        (calculateSegments T c name) →
      obs.sum ≤ T) := by
  obtain ⟨h1, h2⟩ :=
    runParts_clean true scriptsFor (calculateSegments T c name) fs 0 hclean
  have hsum := calculateSegments_sizes_sum T c name hT hc
  refine ⟨h1, by rw [h2, hsum, zero_add], ?_⟩
  intro obs hobs
  calc obs.sum ≤ ((calculateSegments T c name).map partSize).sum :=
        forall₂_sum_le hobs
    _ = T := hsum

/-- Witness for C3 (amended) at `T = 2`, `c = 1`, all first attempts
succeeding. -/
theorem c3_progress_counter_witness :
    (runParts true fullSuccessScripts none (calculateSegments 2 1 "o")
      fsEmpty 0).2.1 = 2 :=
  (c3_progress_counter 2 1 "o" fullSuccessScripts fsEmpty (by decide)
    (by decide)
    (fun p hp => by
      have hp' : p = mkSegment 2 1 "o" 0 := by
        have hlist : calculateSegments 2 1 "o" = [mkSegment 2 1 "o" 0] := by
          decide
        rw [hlist] at hp
        simpa using hp
      refine ⟨0, by omega, fun i hi => absurd hi (by omega),
        fun i hi => absurd hi (by omega), rfl, ?_⟩
      rw [hp']
      decide)).2.1

/-- `strings.Split` on a separator-free string yields one field. -/
theorem splitSlash_no_sep (b : List Char) (hb : '/' ∉ b) :
    splitSlash b = [b] := by
  induction b with
  | nil => rfl
  | cons c cs ih =>
      have hc : ¬(c = '/') := fun h => hb (h ▸ List.mem_cons_self c cs)
      have hcs : '/' ∉ cs := fun h => hb (List.mem_cons_of_mem c h)
      simp [splitSlash, hc, ih hcs]

/-- `strings.Split` before the first separator collects the prefix. -/
theorem splitSlash_append (a b : List Char) (ha : '/' ∉ a) :
    splitSlash (a ++ '/' :: b) = a :: splitSlash b := by
  induction a with
  | nil => simp [splitSlash]
  | cons c cs ih =>
      have hc : ¬(c = '/') := fun h => ha (h ▸ List.mem_cons_self c cs)
      have hcs : '/' ∉ cs := fun h => ha (List.mem_cons_of_mem c h)
      simp [splitSlash, hc, ih hcs]

/-- C6: `probeURL` tries `HEAD` first: a 200 answer returns its declared
content length and whether `Accept-Ranges` is exactly `"bytes"`; otherwise
the ranged `GET` decides: a failed request is a probe error; a 206 with a
`Content-Range` of the form `<prefix>/<total>` returns the parsed total
with range support true; a 200 returns the declared content length with
range support false; any other status is a probe error. -/
theorem c6_probeURL_spec (head ranged : Option HTTPResponse) :
    (∀ r, head = some r → r.status = 200 →
      probeURL head ranged = some (r.contentLength, r.acceptRanges == "bytes")) ∧
    ((head = none ∨ ∃ r, head = some r ∧ r.status ≠ 200) →
      ((ranged = none → probeURL head ranged = none) ∧
        (∀ g, ranged = some g →
          (g.status = 206 →
            ∀ (a b : List Char) (total : Int), g.contentRange = a ++ '/' :: b →
              '/' ∉ a → '/' ∉ b → parseIntGo b = some total →
              probeURL head ranged = some (total, true)) ∧
          (g.status = 200 →
            probeURL head ranged = some (g.contentLength, false)) ∧
          (g.status ≠ 206 → g.status ≠ 200 →
            probeURL head ranged = none)))) := by
  constructor
  · intro r hr h200
    rw [hr]
    simp [probeURL, h200]
  · intro hother
    have hfb : probeURL head ranged = probeFallback ranged := by
      rcases hother with hnone | ⟨r, hr, hne⟩
      · rw [hnone]
        rfl
      · rw [hr]
        simp [probeURL, hne]
    refine ⟨?_, ?_⟩
    · intro h
      rw [hfb, h]
      rfl
    · intro g hg
      refine ⟨?_, ?_, ?_⟩
      · intro h206 a b total hcr ha hb hparse
        have hsplit : splitSlash g.contentRange = [a, b] := by
          rw [hcr, splitSlash_append a b ha, splitSlash_no_sep b hb]
        rw [hfb, hg]
        simp [probeFallback, h206, hsplit, hparse]
      · intro h200
        rw [hfb, hg]
        simp [probeFallback, h200]
      · intro h206 h200
        rw [hfb, hg]
        simp [probeFallback, h206, h200]

/-- Witness for C6: a rejected `HEAD` (403) followed by a 206 `GET` with
`Content-Range: bytes 0-0/123456` probes to `(123456, true)`. -/
theorem c6_probeURL_spec_witness :
    probeURL (some ⟨403, -1, "", []⟩)
      (some ⟨206, -1, "",
        ['b', 'y', 't', 'e', 's', ' ', '0', '-', '0', '/',
         '1', '2', '3', '4', '5', '6']⟩) =
      some (123456, true) := by
  have h := (c6_probeURL_spec (some ⟨403, -1, "", []⟩)
    (some ⟨206, -1, "",
      ['b', 'y', 't', 'e', 's', ' ', '0', '-', '0', '/',
       '1', '2', '3', '4', '5', '6']⟩)).2
  have h2 := (h (Or.inr ⟨⟨403, -1, "", []⟩, rfl, by decide⟩)).2
    ⟨206, -1, "",
      ['b', 'y', 't', 'e', 's', ' ', '0', '-', '0', '/',
       '1', '2', '3', '4', '5', '6']⟩ rfl
  exact h2.1 rfl ['b', 'y', 't', 'e', 's', ' ', '0', '-', '0']
    ['1', '2', '3', '4', '5', '6'] 123456 rfl (by decide) (by decide)
    (by decide)

/-- C7: when the probe reports no range support or a total size `≤ 0`
(unknown sizes are reported as `-1` or `0`), `Engine.Start` builds exactly
one segment `[0, T-1]` spanning the whole resource, whatever the requested
concurrency, and every fetch for it carries no `Range` header. -/
theorem c7_single_segment_fallback (T : Int) (resumable : Bool) (c : Nat)
    (name : String) (h : resumable = false ∨ T ≤ 0) :
    startSegments T resumable c name =
      [{ id := 0, start := 0, stop := T - 1, tempPath := name ++ ".part0" }] ∧
    (startSegments T resumable c name).length = 1 ∧
    isResumableFlag resumable T = false ∧
    (∀ (canceled : Bool) (a : AttemptScript) (fs : FS) (dl : Int) (p0 : Part),
      (downloadPart canceled (isResumableFlag resumable T) p0 a fs dl).rangeHeader
        = none) := by
  have hflag : isResumableFlag resumable T = false := by
    rcases h with h | h
    · simp [isResumableFlag, h]
    · have hTn : ¬(0 < T) := by omega
      simp [isResumableFlag, hTn]
  refine ⟨by simp [startSegments, hflag], by simp [startSegments, hflag], hflag,
    ?_⟩
  intro canceled a fs dl p0
  cases canceled
  · rw [downloadPart_eq, hflag]
    simp
  · rw [downloadPart_canceled, hflag]
    simp

/-- Witness for C7: an unknown size (`-1`) with requested concurrency 16
still yields the single whole-resource segment. -/
theorem c7_single_segment_fallback_witness :
    startSegments (-1) true 16 "f" = [⟨0, 0, -2, "f.part0"⟩] :=
  (c7_single_segment_fallback (-1) true 16 "f" (Or.inr (by decide))).1

/-- `find?` returns the first matching element. -/
theorem find?_first_a_record (pre post : List DoHAnswer) (ans : DoHAnswer)
    (hpre : ∀ x ∈ pre, x.type ≠ 1) (hans : ans.type = 1) :
    (pre ++ ans :: post).find? (fun a => a.type == 1) = some ans := by
  induction pre with
  | nil => simp [List.find?_cons, hans]
  | cons x xs ih =>
      have hxb : (x.type == 1) = false := by
        simpa using hpre x (List.mem_cons_self x xs)
      simp only [List.cons_append, List.find?_cons, hxb]
      exact ih fun y hy => hpre y (List.mem_cons_of_mem x hy)

/-- C8: from the provider's decoded answer (HTTP 200), `resolveDoH`
returns the `Data` of the first type-1 (IPv4 `A`) record, and fails with a
resolution error on a non-zero DNS status, an empty answer list, or an
answer list with no `A` record. -/
theorem c8_resolveDoH_spec (domain : String) (body : DoHResponse) :
    (body.status ≠ 0 →
      resolveDoH domain 200 body = .error (.dnsError body.status)) ∧
    (body.status = 0 → body.answer = [] →
      resolveDoH domain 200 body = .error (.noAnswer domain)) ∧
    (body.status = 0 → ∀ pre ans post, body.answer = pre ++ ans :: post →
      (∀ x ∈ pre, x.type ≠ 1) → ans.type = 1 →
      resolveDoH domain 200 body = .ok ans.data) ∧
    (body.status = 0 → body.answer ≠ [] → (∀ x ∈ body.answer, x.type ≠ 1) →
      resolveDoH domain 200 body = .error (.noARecord domain)) := by
  refine ⟨?_, ?_, ?_, ?_⟩
  · intro hst
    simp [resolveDoH, hst]
  · intro hst hemp
    simp [resolveDoH, hst, hemp]
  · intro hst pre ans post hans hpre htype
    have hfind := find?_first_a_record pre post ans hpre htype
    have hne : body.answer.isEmpty = false := by
      rw [hans]
      simp
    simp [resolveDoH, hst, hne, hans, hfind]
  · intro hst hne hno
    have hemp : body.answer.isEmpty = false := by
      cases hb : body.answer with
      | nil => exact absurd hb hne
      | cons x xs => simp
    have hfind : body.answer.find? (fun a => a.type == 1) = none := by
      rw [List.find?_eq_none]
      intro x hx
      simp
      exact hno x hx
    simp [resolveDoH, hst, hemp, hfind]

/-- Witness for C8: the first type-1 record's address is returned even
when a non-`A` record precedes it and another `A` record follows. -/
theorem c8_resolveDoH_spec_witness :
    resolveDoH "example.com" 200
      ⟨0, [⟨"example.com", 5, 300, "alias.example.net"⟩,
           ⟨"example.com", 1, 300, "1.2.3.4"⟩,
           ⟨"example.com", 1, 300, "5.6.7.8"⟩]⟩ = .ok "1.2.3.4" :=
  (c8_resolveDoH_spec "example.com"
      ⟨0, [⟨"example.com", 5, 300, "alias.example.net"⟩,
           ⟨"example.com", 1, 300, "1.2.3.4"⟩,
           ⟨"example.com", 1, 300, "5.6.7.8"⟩]⟩).2.2.1 rfl
    [⟨"example.com", 5, 300, "alias.example.net"⟩]
    ⟨"example.com", 1, 300, "1.2.3.4"⟩
    [⟨"example.com", 1, 300, "5.6.7.8"⟩] rfl (by decide) rfl

/-- C9: for every configuration, the transport `NewEngine` installs has
TLS certificate verification disabled (`InsecureSkipVerify: true`) — in
particular also when the DoH flag is off, so disabling DoH does not
restore certificate verification. -/
theorem c9_insecure_tls_always (cfg : Config) :
    (NewEngine cfg).transport.tlsClientConfig.insecureSkipVerify = true ∧
    (NewEngine { cfg with useDoH := false
      }).transport.tlsClientConfig.insecureSkipVerify = true := by
  refine ⟨?_, by simp [NewEngine]⟩
  by_cases h : cfg.useDoH <;> simp [NewEngine, NewDoHTransport, h]

/-- C10: every download attempt requests the range `[p.start, p.stop]` —
never an offset adjusted by previously written bytes — and an attempt
that reaches streaming leaves the temp file holding exactly the bytes it
streamed, whatever a previous attempt left there (`os.Create` truncates);
an attempt failing before the status check leaves the file system
untouched, so no attempt ever resumes from or appends to a partial file. -/
theorem c10_attempt_truncates (isR : Bool) (p : Part) (a : AttemptScript)
    (fs : FS) (dl : Int) :
    ((downloadPart false isR p a fs dl).rangeHeader =
      if isR then some (p.start, p.stop) else none) ∧
    (a.doErr = none → (a.status = 206 ∨ a.status = 200) →
      (downloadPart false isR p a fs dl).fs p.tempPath =
        some a.chunks.flatten) ∧
    ((a.doErr ≠ none ∨ ¬(a.status = 206 ∨ a.status = 200)) →
      (downloadPart false isR p a fs dl).fs = fs) := by
  rw [downloadPart_eq]
  refine ⟨rfl, ?_, ?_⟩
  · intro h1 h2
    simp [attemptFS, h1, h2, FS.update]
  · intro h
    have hcond : ¬(a.doErr = none ∧ (a.status = 206 ∨ a.status = 200)) := by
      tauto
    simp [attemptFS, hcond]

/-- Witness for C10: a retried attempt overwrites the two stale bytes a
previous attempt left in `o.part0` with exactly its own streamed bytes. -/
theorem c10_attempt_truncates_witness :
    (downloadPart false true pW ⟨none, 206, [[7, 8]], none⟩ fsTwoParts 0).fs
      pW.tempPath = some [7, 8] :=
  (c10_attempt_truncates true pW ⟨none, 206, [[7, 8]], none⟩ fsTwoParts 0).2.1
    rfl (Or.inl rfl)

end WarpDL
